import Mathlib

/-
Verification of the gitlet-rs version-control engine against its design
specification.  The Rust sources are shallowly embedded: hash maps and hash
sets become association lists and membership lists, the filesystem becomes
explicit record states, and the external SHA-1 / zlib primitives become
function parameters.  Every definition follows the corresponding Rust
function; file and line references point into the repository sources.
-/

namespace Gitlet

abbrev Path := String
abbrev Hash := String

/-! ## Association-list model of HashMap / HashSet -/

/-- Lookup in an association list; models HashMap::get. -/
def lookupKey {α β : Type} [DecidableEq α] : List (α × β) → α → Option β
  | [], _ => none
  | (k, v) :: rest, p => if k = p then some v else lookupKey rest p

/-- Key-membership test; models HashMap::contains_key. -/
def hasKey {α β : Type} [DecidableEq α] (l : List (α × β)) (p : α) : Bool :=
  (lookupKey l p).isSome

/-- Insert-or-replace keyed update; models HashMap::insert (and the
entry().and_modify().or_insert pattern of Commit::new). -/
def insertReplace {α β : Type} [DecidableEq α] : List (α × β) → α → β → List (α × β)
  | [], p, v => [(p, v)]
  | (k, w) :: t, p, v => if k = p then (p, v) :: t else (k, w) :: insertReplace t p v

/-- Remove an entry by key; models HashMap::remove. -/
def eraseKey {α β : Type} [DecidableEq α] (l : List (α × β)) (p : α) : List (α × β) :=
  l.filter (fun q => q.1 ≠ p)

/-- Membership in a list; models HashSet::contains. -/
def memb {α : Type} [DecidableEq α] (a : α) : List α → Bool
  | [] => false
  | b :: t => if b = a then true else memb a t

/-- Insertion into a set; models HashSet::insert. -/
def insertElem {α : Type} [DecidableEq α] (l : List α) (a : α) : List α :=
  if memb a l then l else l ++ [a]

/-- Removal from a set; models HashSet::remove. -/
def eraseElem {α : Type} [DecidableEq α] (l : List α) (a : α) : List α :=
  l.filter (fun b => b ≠ a)

theorem lookupKey_eq_none {α β : Type} [DecidableEq α] {l : List (α × β)} {a : α}
    (h : a ∉ l.map Prod.fst) : lookupKey l a = none := by
  induction l with
  | nil => rfl
  | cons q t ih =>
    simp only [List.map_cons, List.mem_cons] at h
    push_neg at h
    obtain ⟨k, v⟩ := q
    simp only [lookupKey]
    rw [if_neg (fun he => h.1 he.symm), ih h.2]

theorem lookupKey_insertReplace {α β : Type} [DecidableEq α] (l : List (α × β)) (p : α)
    (v : β) (q : α) :
    lookupKey (insertReplace l p v) q = if q = p then some v else lookupKey l q := by
  induction l with
  | nil =>
    simp only [insertReplace, lookupKey]
    by_cases hq : q = p
    · subst hq; rfl
    · rw [if_neg (fun h => hq h.symm), if_neg hq]
  | cons e t ih =>
    obtain ⟨k, w⟩ := e
    simp only [insertReplace]
    by_cases hk : k = p
    · subst hk
      rw [if_pos rfl]
      simp only [lookupKey]
      by_cases hq : k = q
      · rw [if_pos hq, if_pos hq, if_pos hq.symm]
      · rw [if_neg hq, if_neg hq, if_neg (fun h => hq h.symm)]
    · rw [if_neg hk]
      simp only [lookupKey, ih]
      by_cases hkq : k = q
      · have hqp : ¬ q = p := fun h => hk (hkq.trans h)
        rw [if_pos hkq, if_pos hkq, if_neg hqp]
      · rw [if_neg hkq, if_neg hkq]

theorem lookupKey_foldl_insertReplace {α β : Type} [DecidableEq α] (adds : List (α × β)) :
    ∀ (init : List (α × β)) (q : α), (adds.map Prod.fst).Nodup →
      lookupKey (adds.foldl (fun acc e => insertReplace acc e.1 e.2) init) q =
        match lookupKey adds q with
        | some v => some v
        | none => lookupKey init q := by
  induction adds with
  | nil => intro init q _; rfl
  | cons e t ih =>
    intro init q hnd
    simp only [List.map_cons, List.nodup_cons] at hnd
    simp only [List.foldl_cons]
    rw [ih (insertReplace init e.1 e.2) q hnd.2]
    by_cases hq : e.1 = q
    · have hnt : q ∉ List.map Prod.fst t := hq ▸ hnd.1
      simp only [lookupKey_eq_none hnt, lookupKey, if_pos hq, lookupKey_insertReplace]
      rw [if_pos hq.symm]
    · simp only [lookupKey, if_neg hq]
      cases ht : lookupKey t q with
      | some w => rfl
      | none =>
        simp only [lookupKey_insertReplace]
        rw [if_neg (fun h => hq h.symm)]

theorem lookupKey_filter_removals {α β : Type} [DecidableEq α] (l : List (α × β))
    (rem : List α) (p : α) :
    lookupKey (l.filter (fun q => ¬ memb q.1 rem = true)) p =
      if memb p rem = true then none else lookupKey l p := by
  induction l with
  | nil => simp [lookupKey]
  | cons e t ih =>
    by_cases he : memb e.1 rem = true
    · rw [List.filter_cons_of_neg (by simpa using he), ih]
      by_cases hp : memb p rem = true
      · rw [if_pos hp, if_pos hp]
      · rw [if_neg hp, if_neg hp]
        obtain ⟨k, v⟩ := e
        simp only [lookupKey]
        rw [if_neg (fun h1 : k = p => hp (h1 ▸ he))]
    · rw [List.filter_cons_of_pos (by simpa using he)]
      obtain ⟨k, v⟩ := e
      simp only [lookupKey]
      by_cases h1 : k = p
      · subst h1
        rw [if_pos rfl, if_neg (by simpa using he), if_pos rfl]
      · rw [if_neg h1, ih, if_neg h1]

/-! ## Blob digests (src/blob.rs)

Blob::new (blob.rs lines 26-43) does not hash the raw bytes of the file: it
iterates over BufRead::lines(), feeding each line to the SHA-1 hasher.  The
lines iterator strips every line-feed byte and every carriage return that
immediately precedes a line feed, so the hasher input is the concatenation of
the terminator-stripped lines.  The SHA-1 function itself is external (the
sha1 crate) and enters the model as an opaque parameter; feeding the hasher
piecewise equals hashing the concatenation. -/

/-- Byte stream actually fed to the SHA-1 hasher by Blob::new: the file
content with every line feed removed and every carriage return that directly
precedes a line feed removed (BufRead::lines semantics). -/
def blobHashInput : List Char → List Char
  | [] => []
  | '\r' :: '\n' :: rest => blobHashInput rest
  | '\n' :: rest => blobHashInput rest
  | c :: rest => c :: blobHashInput rest

/-- Digest assigned by Blob::new to a file with the given content, where
sha1hex stands for the hex-encoded SHA-1 of a byte sequence. -/
def blobDigest (sha1hex : List Char → Hash) (content : List Char) : Hash :=
  sha1hex (blobHashInput content)

/-! ## Commits (src/commit.rs) -/

structure CommitRec where
  hash : Hash
  parent : Hash
  merge_parent : Hash
  message : String
  timestamp : Nat
  blobs : List (Path × Hash)
deriving DecidableEq

abbrev CommitStore := Hash → Option CommitRec

/-- Commit::load (commit.rs lines 90-118): the empty hash is the virtual
pre-history commit; otherwise the stored record is deserialized. -/
def loadCommit (store : CommitStore) (h : Hash) : Option CommitRec :=
  if h = "" then some { hash := "", parent := "", merge_parent := "", message := "",
                        timestamp := 0, blobs := [] }
  else store h

/-- get_commit_blobs (commit.rs lines 142-146). -/
def getCommitBlobs (store : CommitStore) (h : Hash) : Option (List (Path × Hash)) :=
  (loadCommit store h).map CommitRec.blobs

/-- Staging area record (src/index.rs lines 15-19). -/
structure IndexRec where
  additions : List (Path × Hash)
  removals : List Path
deriving DecidableEq

/-- Index::is_clear (index.rs lines 72-74). -/
def IndexRec.isClear (idx : IndexRec) : Bool :=
  idx.additions.isEmpty && idx.removals.isEmpty

/-- Snapshot computation of Commit::new (commit.rs lines 39-62): start from
the parent commit's tracked blobs, drop every path staged for removal, then
insert-or-replace every staged addition. -/
def snapshotBlobs (parentBlobs : List (Path × Hash)) (idx : IndexRec) :
    List (Path × Hash) :=
  let kept := parentBlobs.filter (fun q => ¬ memb q.1 idx.removals = true)
  idx.additions.foldl (fun acc e => insertReplace acc e.1 e.2) kept

/-- Commit::new (commit.rs lines 32-87).  The four-tuple digest is computed by
sha1hex over the concatenation fed to the hasher; failure to load a non-empty
parent propagates as none. -/
def commitNew (sha1hex : String → Hash) (store : CommitStore) (parent : Hash)
    (mergeParent : Option Hash) (message : String) (timestamp : Nat)
    (idx : IndexRec) : Option CommitRec :=
  match (if parent = "" then some [] else getCommitBlobs store parent) with
  | none => none
  | some parentBlobs =>
    let mp := mergeParent.getD ""
    some { hash := sha1hex (parent ++ mp ++ message ++ toString timestamp),
           parent := parent, merge_parent := mp, message := message,
           timestamp := timestamp, blobs := snapshotBlobs parentBlobs idx }

theorem lookupKey_snapshotBlobs (parentBlobs : List (Path × Hash)) (idx : IndexRec)
    (p : Path) (hadd : (idx.additions.map Prod.fst).Nodup) :
    lookupKey (snapshotBlobs parentBlobs idx) p =
      match lookupKey idx.additions p with
      | some v => some v
      | none => if memb p idx.removals = true then none else lookupKey parentBlobs p := by
  unfold snapshotBlobs
  rw [lookupKey_foldl_insertReplace idx.additions _ p hadd]
  cases lookupKey idx.additions p with
  | some v => rfl
  | none => simp only [lookupKey_filter_removals]

/-- C3: the spec says the blob digest is the SHA-1 of the file's byte content,
so that two files get equal digests exactly when their contents are equal.  The
code feeds the hasher the newline-stripped lines instead, so the distinct
contents "ab" and (a, line feed, b) produce the same hasher input and hence the
same digest under every hash function. -/
theorem blobDigest_collides_on_distinct_contents :
    (∀ sha1hex : List Char → Hash,
        blobDigest sha1hex ("a\nb".toList) = blobDigest sha1hex ("ab".toList)) ∧
      "a\nb".toList ≠ "ab".toList ∧
      blobHashInput ("a\nb".toList) ≠ "a\nb".toList := by
  refine ⟨fun sha1hex => ?_, by decide, by decide⟩
  have h : blobHashInput ("a\nb".toList) = blobHashInput ("ab".toList) := by decide
  simp only [blobDigest, h]

/-- C4: the tracked mapping of a commit built by Commit::new equals the parent
commit's tracked mapping (empty for the empty-string sentinel parent), minus
every path staged for removal, with every staged addition then inserted or
replacing the existing entry. -/
theorem commitNew_tracked (sha1hex : String → Hash) (store : CommitStore)
    (parent : Hash) (mergeParent : Option Hash) (message : String) (timestamp : Nat)
    (idx : IndexRec) (parentBlobs : List (Path × Hash)) (c : CommitRec)
    (hadd : (idx.additions.map Prod.fst).Nodup)
    (hp : getCommitBlobs store parent = some parentBlobs)
    (hc : commitNew sha1hex store parent mergeParent message timestamp idx = some c)
    (p : Path) :
    lookupKey c.blobs p =
      match lookupKey idx.additions p with
      | some v => some v
      | none => if memb p idx.removals = true then none else lookupKey parentBlobs p := by
  have hbase : (if parent = "" then some ([] : List (Path × Hash))
      else getCommitBlobs store parent) = some parentBlobs := by
    by_cases hpar : parent = ""
    · subst hpar
      simp only [getCommitBlobs, loadCommit] at hp
      simpa using hp
    · rw [if_neg hpar]; exact hp
  unfold commitNew at hc
  rw [hbase] at hc
  simp only [Option.some.injEq] at hc
  have hblobs : c.blobs = snapshotBlobs parentBlobs idx := by rw [← hc]
  rw [hblobs]
  exact lookupKey_snapshotBlobs parentBlobs idx p hadd

def c4Store : CommitStore := fun h =>
  if h = "p1" then
    some { hash := "p1", parent := "", merge_parent := "", message := "base",
           timestamp := 1, blobs := [("a", "1"), ("b", "2")] }
  else none

def c4Index : IndexRec := { additions := [("b", "3"), ("c", "4")], removals := ["a"] }

/-- Witness for C4 at a concrete parent commit and index. -/
theorem commitNew_tracked_witness :
    lookupKey (snapshotBlobs [("a", "1"), ("b", "2")] c4Index) "b" =
      match lookupKey c4Index.additions "b" with
      | some v => some v
      | none => if memb "b" c4Index.removals = true then none
                else lookupKey [("a", "1"), ("b", "2")] "b" := by
  have h := commitNew_tracked (fun _ => "H") c4Store "p1" none "m" 5 c4Index
    [("a", "1"), ("b", "2")]
    { hash := "H", parent := "p1", merge_parent := "", message := "m",
      timestamp := 5, blobs := snapshotBlobs [("a", "1"), ("b", "2")] c4Index }
    (by decide) (by decide) (by rfl) "b"
  exact h

/-! ## Index operations (src/index.rs)

The staging operations are embedded as state transformers on IndexRec.  The
ambient facts they consult — whether the HEAD commit tracks a path, whether
the file exists on disk — are passed in explicitly; the object-store writes
they perform (Blob::save, Blob::delete) do not affect the index record and
are outside this model. -/

/-- Index::stage (index.rs lines 61-69): drop the path from removals, then
insert-or-replace it in additions with the freshly computed blob digest. -/
def stageOp (idx : IndexRec) (p : Path) (h : Hash) : IndexRec :=
  { additions := insertReplace idx.additions p h,
    removals := eraseElem idx.removals p }

/-- Unstage branch of index::action (index.rs lines 123-126): remove the path
from both additions and removals. -/
def unstageOp (idx : IndexRec) (p : Path) : IndexRec :=
  { additions := eraseKey idx.additions p,
    removals := eraseElem idx.removals p }

/-- Outcome of index::rm on a path that exists on disk. -/
inductive RmOutcome
  | notTracked
  | stagedConflict
  | removed
deriving DecidableEq

/-- True exactly when the Rust function returns an Err for that outcome:
only the staged-changes conflict is an anyhow::bail; the not-tracked case
prints to stdout and returns Ok (index.rs lines 152-157). -/
def RmOutcome.isErr : RmOutcome → Bool
  | .stagedConflict => true
  | _ => false

/-- index::rm for a path that exists on disk (index.rs lines 138-190).
Returns the resulting index, the outcome, and whether the working-tree file
was deleted. -/
def rmExists (trackedByHead : Path → Bool) (cached : Bool) (idx : IndexRec)
    (p : Path) : IndexRec × RmOutcome × Bool :=
  if ¬ hasKey idx.additions p = true ∧ ¬ trackedByHead p = true then
    (idx, .notTracked, false)
  else if cached then
    let idx1 : IndexRec := { idx with additions := eraseKey idx.additions p }
    let idx2 : IndexRec :=
      if trackedByHead p then { idx1 with removals := insertElem idx1.removals p } else idx1
    (idx2, .removed, false)
  else if hasKey idx.additions p then (idx, .stagedConflict, false)
  else
    let idx2 : IndexRec :=
      if trackedByHead p then { idx with removals := insertElem idx.removals p } else idx
    (idx2, .removed, true)

/-- Outcome of index::rm_deleted. -/
inductive RmDelOutcome
  | notTracked
  | stagedForRemoval
  | droppedAddition
  | alreadyStaged
deriving DecidableEq

/-- index::rm_deleted (index.rs lines 193-221), reached by index::rm when the
path no longer exists on disk.  A path that is tracked by HEAD and not yet in
removals is inserted into removals — without being dropped from additions. -/
def rmDeleted (trackedByHead : Path → Bool) (idx : IndexRec) (p : Path) :
    IndexRec × RmDelOutcome :=
  if ¬ hasKey idx.additions p = true ∧ ¬ trackedByHead p = true then
    (idx, .notTracked)
  else if ¬ memb p idx.removals = true ∧ trackedByHead p = true then
    ({ idx with removals := insertElem idx.removals p }, .stagedForRemoval)
  else if hasKey idx.additions p then
    ({ idx with additions := eraseKey idx.additions p }, .droppedAddition)
  else (idx, .alreadyStaged)

/-- Disjointness invariant claimed by the spec for the staging area. -/
def indexDisjoint (idx : IndexRec) : Prop :=
  ∀ p : Path, ¬ (hasKey idx.additions p = true ∧ memb p idx.removals = true)

def emptyIndex : IndexRec := { additions := [], removals := [] }

/-- C5: the spec claims no path is ever simultaneously in additions and
removals.  The sequence stage then rm-on-a-deleted-file breaks it: for a path
tracked by HEAD that is staged for addition and then deleted from disk,
rm_deleted inserts the path into removals without dropping it from additions,
so the persisted index holds the path in both. -/
theorem rmDeleted_breaks_index_disjointness :
    hasKey ((rmDeleted (fun q => q == "a.txt")
        (stageOp emptyIndex "a.txt" "h1") "a.txt").1).additions "a.txt" = true ∧
      memb "a.txt" ((rmDeleted (fun q => q == "a.txt")
        (stageOp emptyIndex "a.txt" "h1") "a.txt").1).removals = true ∧
      ¬ indexDisjoint (rmDeleted (fun q => q == "a.txt")
        (stageOp emptyIndex "a.txt" "h1") "a.txt").1 := by
  refine ⟨by decide, by decide, fun hdis => hdis "a.txt" ⟨by decide, by decide⟩⟩

/-- C9 counterexample: for a path that exists on disk but is neither staged
for addition nor tracked by HEAD, rm with cached set prints the not-tracked
message and returns Ok — it does not fail, contrary to the claim (the
repository's own test cannot_rm_untracked_file asserts this success). -/
theorem rm_untracked_is_not_a_failure :
    rmExists (fun _ => false) true emptyIndex "a.txt"
        = (emptyIndex, RmOutcome.notTracked, false) ∧
      RmOutcome.isErr RmOutcome.notTracked = false := by
  exact ⟨by decide, by decide⟩

/-- C9 (amended): for every path that exists on disk but is neither a key of
additions nor tracked by HEAD, rm with cached set to true reports the
not-tracked outcome with a success return, deletes nothing, and leaves the
index unchanged. -/
theorem rm_untracked_leaves_index_unchanged (trackedByHead : Path → Bool)
    (idx : IndexRec) (p : Path) (cached : Bool)
    (h1 : hasKey idx.additions p = false) (h2 : trackedByHead p = false) :
    rmExists trackedByHead cached idx p = (idx, RmOutcome.notTracked, false) ∧
      RmOutcome.isErr (rmExists trackedByHead cached idx p).2.1 = false := by
  have hcond : ¬ hasKey idx.additions p = true ∧ ¬ trackedByHead p = true := by
    constructor
    · rw [h1]; exact fun h => Bool.false_ne_true h
    · rw [h2]; exact fun h => Bool.false_ne_true h
  constructor
  · unfold rmExists
    rw [if_pos hcond]
  · unfold rmExists
    rw [if_pos hcond]
    rfl

/-- Witness for C9 at a concrete index and path. -/
theorem rm_untracked_leaves_index_unchanged_witness :
    rmExists (fun _ => false) true
        { additions := [("b.txt", "h2")], removals := ["c.txt"] } "a.txt"
        = ({ additions := [("b.txt", "h2")], removals := ["c.txt"] },
           RmOutcome.notTracked, false) ∧
      RmOutcome.isErr (rmExists (fun _ => false) true
        { additions := [("b.txt", "h2")], removals := ["c.txt"] } "a.txt").2.1 = false :=
  rm_untracked_leaves_index_unchanged (fun _ => false)
    { additions := [("b.txt", "h2")], removals := ["c.txt"] } "a.txt" true
    (by decide) (by decide)

/-! ## The commit operation (src/repo.rs)

repo::commit (repo.rs lines 438-456) is embedded as a transformer on the
persisted repository files, additionally emitting the ordered list of
persistent writes it performs.  Index::load (index.rs lines 28-46) creates an
empty index file when none exists; index::clear_index (index.rs lines 96-102)
deletes the index file. -/

/-- Repository files on disk: commit objects, branch refs, the HEAD branch
name, and the optional index file. -/
structure RepoFiles where
  commits : List (Hash × CommitRec)
  refs : List (String × Hash)
  headBranch : String
  indexFile : Option IndexRec
deriving DecidableEq

/-- Persistent writes performed by repo::commit, in execution order. -/
inductive WriteEvent
  | updateRef (branch : String) (h : Hash)
  | saveCommit (h : Hash)
  | clearIndex
deriving DecidableEq

/-- Result reported by repo::commit. -/
inductive CommitResult
  | ok
  | nothingMsg
  | errStop
deriving DecidableEq

/-- repo::commit (repo.rs lines 438-456): load the index (creating the index
file if absent), return early when it is clear, read the parent hash from the
current branch ref, build the new commit, then perform the writes in source
order: update_head (repo.rs line 450), Commit::save (line 451), clear_index
(line 453). -/
def repoCommit (sha1hex : String → Hash) (message : String) (timestamp : Nat)
    (st : RepoFiles) : RepoFiles × List WriteEvent × CommitResult :=
  let stL : RepoFiles :=
    match st.indexFile with
    | none => { st with indexFile := some emptyIndex }
    | some _ => st
  let idx : IndexRec := stL.indexFile.getD emptyIndex
  if idx.isClear then (stL, [], .nothingMsg)
  else
    match lookupKey stL.refs stL.headBranch with
    | none => (stL, [], .errStop)
    | some parentHash =>
      if ¬ parentHash = "" ∧ ¬ parentHash.length = 40 then (stL, [], .errStop)
      else
        match commitNew sha1hex (fun h => lookupKey stL.commits h) parentHash none
            message timestamp idx with
        | none => (stL, [], .errStop)
        | some c =>
          let st1 : RepoFiles := { stL with refs := insertReplace stL.refs stL.headBranch c.hash }
          let st2 : RepoFiles := { st1 with commits := insertReplace st1.commits c.hash c }
          let st3 : RepoFiles := { st2 with indexFile := none }
          (st3, [.updateRef stL.headBranch c.hash, .saveCommit c.hash, .clearIndex], .ok)

def c8Repo : RepoFiles :=
  { commits := [], refs := [("main", "")], headBranch := "main",
    indexFile := some { additions := [("a.txt", "h1")], removals := [] } }

/-- C8 counterexample: at a concrete repository with a non-clear index the
write trace starts with the branch-ref update, not with the commit-object
save, so the claimed order save-commit, update-ref, clear-index is false. -/
theorem repoCommit_trace_not_save_first :
    (repoCommit (fun _ => "C") "m" 5 c8Repo).2.1
        = [WriteEvent.updateRef "main" "C", WriteEvent.saveCommit "C",
           WriteEvent.clearIndex] ∧
      ¬ (repoCommit (fun _ => "C") "m" 5 c8Repo).2.1
        = [WriteEvent.saveCommit "C", WriteEvent.updateRef "main" "C",
           WriteEvent.clearIndex] := by
  exact ⟨by decide, by decide⟩

/-- C8 (amended): every successful commit on a non-clear index performs its
persistent writes in the order: update the current branch ref to the new
hash, then save the commit object, then clear the index. -/
theorem repoCommit_write_order (sha1hex : String → Hash) (message : String)
    (timestamp : Nat) (st st' : RepoFiles) (tr : List WriteEvent)
    (h : repoCommit sha1hex message timestamp st = (st', tr, CommitResult.ok)) :
    ∃ newHash : Hash,
      tr = [WriteEvent.updateRef st.headBranch newHash,
            WriteEvent.saveCommit newHash, WriteEvent.clearIndex] := by
  cases hIdx : st.indexFile with
  | none =>
    simp only [repoCommit, hIdx] at h
    split at h
    · exact absurd (congrArg (fun q => q.2.2) h) (by simp)
    · split at h
      · exact absurd (congrArg (fun q => q.2.2) h) (by simp)
      · split at h
        · exact absurd (congrArg (fun q => q.2.2) h) (by simp)
        · split at h
          · exact absurd (congrArg (fun q => q.2.2) h) (by simp)
          · exact ⟨_, (congrArg (fun q => q.2.1) h).symm⟩
  | some idx =>
    simp only [repoCommit, hIdx] at h
    split at h
    · exact absurd (congrArg (fun q => q.2.2) h) (by simp)
    · split at h
      · exact absurd (congrArg (fun q => q.2.2) h) (by simp)
      · split at h
        · exact absurd (congrArg (fun q => q.2.2) h) (by simp)
        · split at h
          · exact absurd (congrArg (fun q => q.2.2) h) (by simp)
          · exact ⟨_, (congrArg (fun q => q.2.1) h).symm⟩

/-- Witness for C8 at a concrete repository state. -/
theorem repoCommit_write_order_witness :
    ∃ newHash : Hash,
      [WriteEvent.updateRef "main" "C", WriteEvent.saveCommit "C",
       WriteEvent.clearIndex]
        = [WriteEvent.updateRef c8Repo.headBranch newHash,
           WriteEvent.saveCommit newHash, WriteEvent.clearIndex] :=
  repoCommit_write_order (fun _ => "C") "m" 5 c8Repo
    (repoCommit (fun _ => "C") "m" 5 c8Repo).1
    [WriteEvent.updateRef "main" "C", WriteEvent.saveCommit "C", WriteEvent.clearIndex]
    (by decide)

def c10Repo : RepoFiles :=
  { commits := [], refs := [("main", "")], headBranch := "main", indexFile := none }

/-- C10 counterexample: in a freshly initialized repository the index file
does not exist yet, and its loaded additions and removals are both empty; the
commit operation then creates (writes) the index file via Index::load, so the
index file is not left untouched as the claim states. -/
theorem repoCommit_creates_missing_index_file :
    c10Repo.indexFile = none ∧
      (repoCommit (fun _ => "C") "m" 5 c10Repo).1.indexFile = some emptyIndex ∧
      (repoCommit (fun _ => "C") "m" 5 c10Repo).2.2 = CommitResult.nothingMsg := by
  exact ⟨by decide, by decide, by decide⟩

/-- C10 (amended): when the index file exists and its additions and removals
are both empty, commit returns success, performs no persistent write, and
leaves the whole repository state — commit objects, refs, HEAD, index file —
unchanged; when the index file is missing, the load step first creates an
empty one. -/
theorem repoCommit_clear_index_noop (sha1hex : String → Hash) (message : String)
    (timestamp : Nat) (st : RepoFiles) (idx : IndexRec)
    (h1 : st.indexFile = some idx) (h2 : idx.isClear = true) :
    repoCommit sha1hex message timestamp st = (st, [], CommitResult.nothingMsg) := by
  simp [repoCommit, h1, h2]

/-- Witness for C10 at a concrete repository whose index file is present and
clear. -/
theorem repoCommit_clear_index_noop_witness :
    repoCommit (fun _ => "C") "m" 5
        { commits := [], refs := [("main", "h")], headBranch := "main",
          indexFile := some emptyIndex }
        = ({ commits := [], refs := [("main", "h")], headBranch := "main",
             indexFile := some emptyIndex }, [], CommitResult.nothingMsg) :=
  repoCommit_clear_index_noop (fun _ => "C") "m" 5
    { commits := [], refs := [("main", "h")], headBranch := "main",
      indexFile := some emptyIndex }
    emptyIndex (by decide) (by decide)

/-! ## Commit history iteration (src/commit.rs lines 175-299) -/

/-- get_parent_hashes (commit.rs lines 263-281): the frontier hashes of a
commit, with empty-string sentinels mapped to None and a lone merge parent
promoted into the parent slot. -/
def getParentHashes (store : CommitStore) (h : Hash) : Option Hash × Option Hash :=
  if h = "" then (none, none)
  else
    match store h with
    | none => (none, none)
    | some c =>
      if c.parent = "" then
        if c.merge_parent = "" then (none, none) else (some c.merge_parent, none)
      else
        if c.merge_parent = "" then (some c.parent, none)
        else (some c.parent, some c.merge_parent)

/-- more_recent_hash (commit.rs lines 283-299): pick the loadable frontier
with the larger timestamp. -/
def moreRecentHash (store : CommitStore) (p m : Hash) : Option Hash :=
  match loadCommit store p, loadCommit store m with
  | some pc, some mc => if pc.timestamp > mc.timestamp then some pc.hash else some mc.hash
  | some pc, none => some pc.hash
  | none, some mc => some mc.hash
  | none, none => none

/-- Iterator state of CommitIter (commit.rs lines 180-184). -/
structure IterState where
  current : Option Hash
  parentH : Option Hash
  mergeH : Option Hash
deriving DecidableEq

/-- One step of the CommitIter::next state machine (commit.rs lines 198-261):
emit the commit at the current hash and advance the two frontiers. -/
def iterNext (store : CommitStore) (s : IterState) : Option (CommitRec × IterState) :=
  match s.current with
  | none => none
  | some cur =>
    match s.parentH, s.mergeH with
    | none, none =>
      (loadCommit store cur).map (fun c => (c, ⟨none, none, none⟩))
    | none, some h =>
      (loadCommit store cur).map (fun c =>
        (c, ⟨some h, (getParentHashes store h).1, (getParentHashes store h).2⟩))
    | some h, none =>
      (loadCommit store cur).map (fun c =>
        (c, ⟨some h, (getParentHashes store h).1, (getParentHashes store h).2⟩))
    | some p, some m =>
      if p = m then
        (loadCommit store cur).map (fun c =>
          (c, ⟨some p, (getParentHashes store p).1, (getParentHashes store p).2⟩))
      else
        match moreRecentHash store p m with
        | some h =>
          if h = p then
            (loadCommit store cur).map (fun c =>
              (c, ⟨some p, (getParentHashes store p).1, some m⟩))
          else
            (loadCommit store cur).map (fun c =>
              (c, ⟨some m, some p, (getParentHashes store m).1⟩))
        | none => (loadCommit store cur).map (fun c => (c, ⟨none, none, none⟩))

/-- Commit::iter (commit.rs lines 187-195). -/
def commitIterInit (store : CommitStore) (c : CommitRec) : IterState :=
  { current := some c.hash,
    parentH := (getParentHashes store c.hash).1,
    mergeH := (getParentHashes store c.hash).2 }

/-- Run the iterator, collecting at most the given number of commits; the
Rust for-loop stops at the first None. -/
def iterRun (store : CommitStore) : Nat → IterState → List CommitRec
  | 0, _ => []
  | n + 1, s =>
    match iterNext store s with
    | none => []
    | some (c, s2) => c :: iterRun store n s2

/-- A linear chain of commits, listed most recent first: every record is
stored under its own hash, hashes are non-empty, no record has a merge
parent, each record's parent is the next record's hash, and the oldest
record's parent is the empty-string sentinel. -/
def chainFrom (store : CommitStore) : List CommitRec → Prop
  | [] => True
  | c :: rest =>
    store c.hash = some c ∧ ¬ c.hash = "" ∧ c.merge_parent = "" ∧
      (match rest with
       | [] => c.parent = ""
       | c2 :: _ => c.parent = c2.hash) ∧
      chainFrom store rest

/-- C6: iterating the history from the head of a linear chain of N commits
yields exactly the N commits of the chain, most recent first; by the chain
shape each yielded commit is the direct parent of the one yielded before it. -/
theorem iterRun_linear_chain (store : CommitStore) (rest : List CommitRec)
    (c : CommitRec) (hchain : chainFrom store (c :: rest)) :
    iterRun store (c :: rest).length (commitIterInit store c) = c :: rest := by
  induction rest generalizing c with
  | nil =>
    obtain ⟨hs, hne, hmp, hpar, -⟩ := hchain
    have hg : getParentHashes store c.hash = (none, none) := by
      simp [getParentHashes, hne, hs, hpar, hmp]
    have hload : loadCommit store c.hash = some c := by
      simp [loadCommit, hne, hs]
    simp [iterRun, iterNext, commitIterInit, hg, hload]
  | cons c2 rest2 ih =>
    obtain ⟨hs, hne, hmp, hpar, hrest⟩ := hchain
    have hne2 : ¬ c2.hash = "" := hrest.2.1
    have hg : getParentHashes store c.hash = (some c2.hash, none) := by
      simp [getParentHashes, hne, hs, hpar, hmp, hne2]
    have hload : loadCommit store c.hash = some c := by
      simp [loadCommit, hne, hs]
    have hrun := ih c2 hrest
    simp only [commitIterInit, hg] at *
    simp only [List.length_cons, iterRun, iterNext, hload, Option.map_some']
    simp only [List.length_cons] at hrun
    exact congrArg (c :: ·) hrun

def c6Base : CommitRec :=
  { hash := "h1", parent := "", merge_parent := "", message := "first",
    timestamp := 1, blobs := [("a.txt", "b1")] }

def c6Tip : CommitRec :=
  { hash := "h2", parent := "h1", merge_parent := "", message := "second",
    timestamp := 2, blobs := [("a.txt", "b2")] }

def c6Store : CommitStore := fun h =>
  if h = "h2" then some c6Tip else if h = "h1" then some c6Base else none

/-- Witness for C6 on a concrete two-commit chain. -/
theorem iterRun_linear_chain_witness :
    iterRun c6Store 2 (commitIterInit c6Store c6Tip) = [c6Tip, c6Base] :=
  iterRun_linear_chain c6Store [c6Base] c6Tip
    ⟨by decide, by decide, by decide, by decide, by decide, by decide, by decide,
      by decide, trivial⟩

/-! ## Blob object persistence (src/blob.rs lines 59-96)

The object store and the working tree are embedded as path-keyed maps of
byte lists; the zlib compressor is an opaque parameter.  write_blob first
creates the (empty) blob object file, then streams the compressed source
into it.  read_blob opens the blob object file read-only, creates the
destination file — a write-only handle — wraps that destination handle in a
write-based ZlibDecoder and a BufReader, and calls io::copy FROM that reader
TOWARD the blob object file.  flate2's Read impl for a write-based decoder
reads raw bytes from the underlying stream, so the copy's first read hits the
write-only, freshly truncated destination and fails; no byte of the stored
object ever reaches the destination. -/

structure BlobFS where
  objects : List (Hash × List Char)
  work : List (Path × List Char)
deriving DecidableEq

/-- Blob::write_blob (blob.rs lines 59-76): create the sharded object file,
open the source, compress and persist.  Returns the new state and whether the
call succeeded. -/
def writeBlob (compress : List Char → List Char) (h : Hash) (src : Path)
    (fs : BlobFS) : BlobFS × Bool :=
  let fsA : BlobFS := { fs with objects := insertReplace fs.objects h [] }
  match lookupKey fs.work src with
  | none => (fsA, false)
  | some content =>
    ({ fsA with objects := insertReplace fsA.objects h (compress content) }, true)

/-- Blob::read_blob (blob.rs lines 79-96): open the stored object (failing
when absent), truncate the destination via File::create, then run io::copy
from the BufReader-wrapped write-based decoder toward the object file.  The
raw read on the write-only destination handle errors, so the call fails with
the destination left empty. -/
def readBlob (h : Hash) (dst : Path) (fs : BlobFS) : BlobFS × Bool :=
  match lookupKey fs.objects h with
  | none => (fs, false)
  | some _ =>
    let fsA : BlobFS := { fs with work := insertReplace fs.work dst [] }
    (fsA, false)

/-- C2: the spec claims read(write(put(b))) reproduces b exactly.  At the
concrete content "Test text." the write succeeds, but the read-back truncates
the destination to empty and fails, for every compression function: the copy
direction in read_blob is reversed. -/
theorem readBlob_after_writeBlob_loses_content :
    ∀ compress : List Char → List Char,
      (writeBlob compress "H" "tmp.txt"
          { objects := [], work := [("tmp.txt", "Test text.".toList)] }).2 = true ∧
      (readBlob "H" "dest.txt"
          (writeBlob compress "H" "tmp.txt"
            { objects := [], work := [("tmp.txt", "Test text.".toList)] }).1).2 = false ∧
      lookupKey (readBlob "H" "dest.txt"
          (writeBlob compress "H" "tmp.txt"
            { objects := [], work := [("tmp.txt", "Test text.".toList)] }).1).1.work
          "dest.txt" = some [] ∧
      ¬ "Test text.".toList = ([] : List Char) := by
  intro compress
  refine ⟨rfl, rfl, rfl, by decide⟩

/-! ## Checkout (src/repo.rs lines 237-376)

checkout_commit is embedded over a flat working-tree map together with the
source commit's tracked blobs and the staging area.  File contents are
strings and the blob digest function is an opaque parameter dg, standing for
the digest Blob::new assigns to a file's content. -/

structure CheckoutState where
  work : List (Path × String)
  srcTracked : List (Path × Hash)
  index : IndexRec
deriving DecidableEq

/-- Modelled from the spec: Blob::hash_same_as_other_file is referenced from
repo.rs but absent from the sources; spec section 4.1 (contentEquals)
specifies it recomputes the digest of the other path and compares the strings. -/
def hashSameAsOtherFile (dg : String → Hash) (blobHash : Hash)
    (otherContent : String) : Bool :=
  dg otherContent == blobHash

/-- Entry contributed to unstaged_modifications (repo.rs lines 559-593) by a
file tracked by the HEAD commit: deleted files get the deleted marker
appended, files whose digest differs from the staged (preferred) or committed
version are listed by bare path. -/
def unstagedEntryForTracked (dg : String → Hash) (st : CheckoutState) (f : Path)
    (trackedHash : Hash) : Option String :=
  match lookupKey st.work f with
  | none =>
    if memb f st.index.removals then none else some (f ++ " (deleted)")
  | some content =>
    match lookupKey st.index.additions f with
    | some stagedHash =>
      if hashSameAsOtherFile dg stagedHash content then none else some f
    | none =>
      if hashSameAsOtherFile dg trackedHash content then none else some f

/-- Entry contributed to unstaged_modifications (repo.rs lines 597-609) by a
staged addition not tracked by HEAD. -/
def unstagedEntryForAddition (dg : String → Hash) (st : CheckoutState) (f : Path)
    (stagedHash : Hash) : Option String :=
  match lookupKey st.work f with
  | none => some (f ++ " (deleted)")
  | some content =>
    if hashSameAsOtherFile dg stagedHash content then none else some f

/-- unstaged_modifications (repo.rs lines 551-612): tracked files first, then
staged additions that HEAD does not track. -/
def unstagedModifications (dg : String → Hash) (st : CheckoutState) : List String :=
  (st.srcTracked.filterMap (fun q => unstagedEntryForTracked dg st q.1 q.2)) ++
    ((st.index.additions.filter (fun q => ¬ hasKey st.srcTracked q.1 = true)).filterMap
      (fun q => unstagedEntryForAddition dg st q.1 q.2))

/-- First whitespace-separated token of a string; models the
split_whitespace().next().unwrap() call of checkout_commit (repo.rs line 258)
that strips the deleted marker from an unstaged-modifications entry. -/
def splitWhitespaceFirst (s : String) : String :=
  String.mk ((s.toList.dropWhile (fun c => c.isWhitespace)).takeWhile
    (fun c => !c.isWhitespace))

/-- file_differs_between_commits (repo.rs lines 364-376). -/
def fileDiffersBetweenCommits (f : Path) (src dst : List (Path × Hash)) : Bool :=
  match lookupKey src f, lookupKey dst f with
  | some a, some b => ¬ a = b
  | _, _ => false

inductive CheckoutResult
  | ok
  | conflictStop (conflicts : List Path)
deriving DecidableEq

/-- checkout_commit (repo.rs lines 243-362).  Classify the first token of
every unstaged-modification entry, every staged addition, and every staged
removal as conflicting (tracked by both commits with differing digests) or
locally modified; abort with the conflict list if any conflict exists;
otherwise delete the files tracked only by the source commit and not locally
modified, and restore every destination file that is not locally modified and
differs from the source version.  Blob::restore is absent from the sources;
modelled from the spec (section 4.1 read): it overwrites the destination path
with the stored blob's content, given here by blobData. -/
def checkoutCommit (dg : String → Hash) (blobData : Hash → String)
    (dst : List (Path × Hash)) (st : CheckoutState) : CheckoutState × CheckoutResult :=
  let src := st.srcTracked
  let classify := fun (acc : List Path × List Path) (f : Path) =>
    if fileDiffersBetweenCommits f src dst then (acc.1 ++ [f], acc.2)
    else (acc.1, acc.2 ++ [f])
  let acc1 := ((unstagedModifications dg st).map splitWhitespaceFirst).foldl classify ([], [])
  let acc2 := (st.index.additions.map Prod.fst).foldl classify acc1
  let acc3 := st.index.removals.foldl classify acc2
  if ¬ acc3.1 = [] then (st, .conflictStop acc3.1)
  else
    let mods := acc3.2
    let afterDelete := src.foldl
      (fun w q =>
        if ¬ memb q.1 mods = true ∧ ¬ hasKey dst q.1 = true then
          w.filter (fun e => e.1 ≠ q.1)
        else w)
      st.work
    let afterRestore := dst.foldl
      (fun w q =>
        if ¬ memb q.1 mods = true then
          match lookupKey src q.1 with
          | some srcHash => if srcHash = q.2 then w else insertReplace w q.1 (blobData q.2)
          | none => insertReplace w q.1 (blobData q.2)
        else w)
      afterDelete
    ({ st with work := afterRestore }, .ok)

def c1State : CheckoutState :=
  { work := [("a b.txt", "h3")],
    srcTracked := [("a b.txt", "h1")],
    index := emptyIndex }

def c1Dst : List (Path × Hash) := [("a b.txt", "h2")]

def c1Digest : String → Hash := fun s => s

/-- C1: the claim requires that a locally modified path tracked by both
commits with differing digests makes checkout fail with the conflict reported
and the tree untouched.  For the path containing a space, the whitespace
split mangles the unstaged-modifications entry into a different path, no
conflict is detected, checkout succeeds, and the destination blob overwrites
the locally modified file. -/
theorem checkoutCommit_overwrites_modified_spaced_path :
    unstagedModifications c1Digest c1State = ["a b.txt"] ∧
      lookupKey c1State.srcTracked "a b.txt" = some "h1" ∧
      lookupKey c1Dst "a b.txt" = some "h2" ∧
      splitWhitespaceFirst "a b.txt" = "a" ∧
      (checkoutCommit c1Digest (fun h => h) c1Dst c1State).2 = CheckoutResult.ok ∧
      lookupKey (checkoutCommit c1Digest (fun h => h) c1Dst c1State).1.work "a b.txt"
        = some "h2" := by
  refine ⟨by decide, by decide, by decide, by decide, by decide, by decide⟩

/-! ## Checkout directory cleanup (src/repo.rs lines 307-342)

For the deletion step, paths are segment lists relative to the repository
root (the code changes into the root before this loop), and the filesystem is
the set of present files and directories.  The Rust loop is

  let dirpath = filepath;
  while let Some(dirpath) = dirpath.parent() { ... }

whose condition re-evaluates the parent of the outer, never-reassigned
dirpath on every iteration: the inner binding shadows it only inside the
body.  The embedding reproduces exactly that: each iteration recomputes the
parent of the original file path. -/

abbrev FPath := List String

structure DirTree where
  files : List FPath
  dirs : List FPath
deriving DecidableEq

/-- Path::parent: none for the empty path, otherwise the path without its
last segment (the parent of a single segment is the empty path). -/
def pathParent : FPath → Option FPath
  | [] => none
  | l => some l.dropLast

/-- Direct-child test used to enumerate a directory's entries. -/
def isChildOf (child parent : FPath) : Bool :=
  ¬ child = [] ∧ child.dropLast = parent

/-- read_dir(d) followed by the is-empty check, as used at repo.rs lines
321-324: none models a read_dir error (empty path — the repository root — or
a missing directory), which the code turns into false via unwrap_or. -/
def readDirIsEmpty (t : DirTree) (d : FPath) : Option Bool :=
  if d = [] then none
  else if memb d t.dirs then
    some ((t.files.all (fun f => ¬ isChildOf f d = true)) &&
      (t.dirs.all (fun q => ¬ isChildOf q d = true)))
  else none

def removeDirAt (t : DirTree) (d : FPath) : DirTree :=
  { t with dirs := t.dirs.filter (fun q => q ≠ d) }

def removeFileAt (t : DirTree) (f : FPath) : DirTree :=
  { t with files := t.files.filter (fun q => q ≠ f) }

/-- The while-let cleanup loop after one file deletion (repo.rs lines
318-340), with fuel bounding the iteration count.  Every iteration recomputes
the parent of the original filepath (the shadowing bug), breaks when read_dir
fails or the directory is non-empty, breaks when the directory is the one the
command was invoked from, and otherwise removes the directory and loops. -/
def cleanupIter (initialDir : FPath) (filepath : FPath) :
    Nat → DirTree → DirTree
  | 0, t => t
  | fuel + 1, t =>
    match pathParent filepath with
    | none => t
    | some p =>
      match readDirIsEmpty t p with
      | none => t
      | some false => t
      | some true =>
        if p = initialDir then t
        else cleanupIter initialDir filepath fuel (removeDirAt t p)

/-- Deletion step of checkout_commit (repo.rs lines 307-342): every file
tracked by the source commit, not locally modified, and absent from the
destination commit is removed, followed by the cleanup loop for its
directories. -/
def checkoutDeleteStep (initialDir : FPath) (srcPaths dstPaths mods : List FPath)
    (fuel : Nat) (t : DirTree) : DirTree :=
  srcPaths.foldl
    (fun acc fp =>
      if ¬ memb fp mods = true ∧ ¬ memb fp dstPaths = true then
        cleanupIter initialDir fp fuel (removeFileAt acc fp)
      else acc)
    t

/-- C7: the claim requires the walk to delete every ancestor directory that
became empty.  Checking out, from the repository root, a destination tracking
nothing, from a source tracking only one/two/e.txt: the file and the emptied
directory one/two are deleted, but the loop then re-examines one/two (not its
parent), read_dir fails on the removed directory, and the walk stops — the
directory one stays behind although it is empty, is not the repository root,
and is not the invocation directory. -/
theorem checkoutDeleteStep_keeps_empty_ancestor :
    checkoutDeleteStep [] [["one", "two", "e.txt"]] [] [] 5
        { files := [["one", "two", "e.txt"]], dirs := [["one"], ["one", "two"]] }
        = { files := [], dirs := [["one"]] } ∧
      readDirIsEmpty
        (checkoutDeleteStep [] [["one", "two", "e.txt"]] [] [] 5
          { files := [["one", "two", "e.txt"]], dirs := [["one"], ["one", "two"]] })
        ["one"] = some true ∧
      ¬ (["one"] : FPath) = [] := by
  refine ⟨by decide, by decide, by decide⟩

end Gitlet
